import Mathlib

/-!
Verification of the CORD-19 analysis pipeline (`data_analysis.py`, `app.py`).

The tabular data is embedded shallowly: a pandas frame is a list of rows, a
cell is an `Option String` (`none` models a null / NaN entry), and the derived
columns added by `CORD19Analyzer.clean_data` are fields of a second row type.
String processing is modelled over ASCII character lists, which is the
fragment the claims exercise.
-/

/-- A row of the raw table produced by `pd.read_csv`: the five columns the
pipeline reads.  `none` models a null (NaN) cell. -/
structure RawRow where
  title : Option String
  abstract : Option String
  journal : Option String
  source_x : Option String
  publish_time : Option String
  deriving DecidableEq

/-- A row of the cleaned table returned by `clean_data`: the original columns,
the parsed date (modelled at year resolution, since only `dt.year` is ever
read), and the three derived columns. -/
structure CleanRow where
  title : Option String
  abstract : Option String
  journal : Option String
  source_x : Option String
  publish_time : Option Int
  publication_year : Option Int
  abstract_word_count : Nat
  journal_clean : Option String
  deriving DecidableEq

/-- Maximal runs of characters satisfying `p`, accumulating the current run
reversed in `cur`; empty runs are dropped.  This is the splitting engine used
for Python's `str.split()` and for the spec-side tokenizer. -/
def runsAux (p : Char → Bool) (cur : List Char) : List Char → List (List Char)
  | [] => if cur.isEmpty then [] else [cur.reverse]
  | c :: cs =>
    if p c then runsAux p (c :: cur) cs
    else (if cur.isEmpty then [] else [cur.reverse]) ++ runsAux p [] cs

/-- Python `str.split()` with no argument: maximal runs of non-whitespace
characters, so leading, trailing and repeated whitespace create no empty
tokens. -/
def splitWS (s : String) : List String :=
  (runsAux (fun c => !c.isWhitespace) [] s.data).map (fun cs => String.mk cs)

/-- Python `str.lower()` on the ASCII fragment. -/
def lowerStr (s : String) : String :=
  String.mk (s.data.map Char.toLower)

/-- Python `str.strip()`: drop whitespace from both ends. -/
def stripStr (s : String) : String :=
  String.mk (((s.data.dropWhile Char.isWhitespace).reverse.dropWhile Char.isWhitespace).reverse)

/-- Split on the literal dash, keeping empty fields (the behaviour of a
field-wise date-string split). -/
def splitDashAux (cur : List Char) : List Char → List (List Char)
  | [] => [cur.reverse]
  | c :: cs =>
    if c == '-' then cur.reverse :: splitDashAux [] cs
    else splitDashAux (c :: cur) cs

/-- A non-empty all-digit character list. -/
def allDigits (l : List Char) : Bool :=
  !l.isEmpty && l.all Char.isDigit

/-- Numeric value of a digit list. -/
def digitsVal (l : List Char) : Nat :=
  l.foldl (fun a c => a * 10 + (c.toNat - 48)) 0

/-- Models `pd.to_datetime(, errors="coerce")` followed by `.dt.year` on the
ISO-like date strings of the dataset: `YYYY`, `YYYY-MM` or `YYYY-MM-DD` with a
four-digit year and in-range month and day yield the year; every other string
is coerced to a null date, which is what the claims observe. -/
def parseDateYear (s : String) : Option Int :=
  match splitDashAux [] s.data with
  | [y] =>
    if allDigits y && y.length == 4 then some (digitsVal y : Int) else none
  | [y, m] =>
    if allDigits y && y.length == 4 && allDigits m && m.length ≤ 2
        && 1 ≤ digitsVal m && digitsVal m ≤ 12 then
      some (digitsVal y : Int)
    else none
  | [y, m, d] =>
    if allDigits y && y.length == 4 && allDigits m && 1 ≤ digitsVal m && digitsVal m ≤ 12
        && allDigits d && 1 ≤ digitsVal d && digitsVal d ≤ 31 then
      some (digitsVal y : Int)
    else none
  | _ => none

/-- The parsed-date year of a raw row: the `publish_time` column after
`pd.to_datetime(, errors="coerce").dt.year`; null stays null. -/
def rowYear (r : RawRow) : Option Int :=
  r.publish_time.bind parseDateYear

/-- Number of occurrences of `a` in a list. -/
def countVal {α : Type} [DecidableEq α] (a : α) : List α → Nat
  | [] => 0
  | b :: bs => (if b = a then 1 else 0) + countVal a bs

/-- Distinct values of a list in first-occurrence order (the key order of a
pandas `value_counts` / Python `Counter` built by insertion). -/
def dedupFirst {α : Type} [DecidableEq α] : List α → List α
  | [] => []
  | a :: as => a :: (dedupFirst as).filter (fun b => decide (b ≠ a))

/-- Largest multiplicity occurring in `ys` (0 when `ys` is empty). -/
def maxCount (ys : List Int) : Nat :=
  (dedupFirst ys).foldl (fun m v => max m (countVal v ys)) 0

/-- The values of `ys` of maximal multiplicity, in first-occurrence order. -/
def modeCandidates (ys : List Int) : List Int :=
  (dedupFirst ys).filter (fun v => decide (countVal v ys = maxCount ys))

/-- Smallest element of a list, `none` on the empty list. -/
def listMin : List Int → Option Int
  | [] => none
  | a :: as =>
    match listMin as with
    | none => some a
    | some m => some (min a m)

/-- Models `Series.mode()[0]` on the year column: `Series.mode` returns the
values of maximal multiplicity sorted ascending, so indexing `[0]` yields the
smallest of them; on an all-null column `mode()` is empty and the indexing
fails, modelled by `none`. -/
def modeSmallest (ys : List Int) : Option Int :=
  listMin (modeCandidates ys)

/-- Abstract word count of a cell, as computed inside `clean_data`:
`len(str(x).split())` for a non-null abstract and `0` for a null one. -/
def pyWordCount (a : Option String) : Nat :=
  match a with
  | none => 0
  | some s => (splitWS s).length

/-- The per-row column derivations of `clean_data`, given the imputation year
`modeYear`: parsed date, publication year with null dates imputed, abstract
word count, and the lowercased-and-stripped journal name (null preserved). -/
def cleanRow (modeYear : Int) (r : RawRow) : CleanRow :=
  ⟨r.title, r.abstract, r.journal, r.source_x, rowYear r,
   some ((rowYear r).getD modeYear),
   pyWordCount r.abstract,
   r.journal.map (fun j => stripStr (lowerStr j))⟩

/-- Embedding of `CORD19Analyzer.clean_data`: parse `publish_time`, derive
`publication_year`, fill its nulls with the mode year, derive
`abstract_word_count` and `journal_clean`, and drop the rows with a null
title.  When every parsed date is null the mode of the year column is empty
and `mode()[0]` raises a `KeyError`; that failure is modelled by `none`. -/
def clean_data (df : List RawRow) : Option (List CleanRow) :=
  match modeSmallest (df.filterMap rowYear) with
  | none => none
  | some m => some ((df.map (cleanRow m)).filter (fun r => r.title.isSome))

/-- The descending-count order used by `value_counts` and by
`Counter.most_common`. -/
def byCountDesc {α : Type} (p q : α × Nat) : Prop :=
  q.2 ≤ p.2

instance byCountDescDec {α : Type} : DecidableRel (@byCountDesc α) :=
  fun p q => Nat.decLe q.2 p.2

instance byCountDescTotal {α : Type} : IsTotal (α × Nat) (@byCountDesc α) :=
  ⟨fun p q => Nat.le_total q.2 p.2⟩

instance byCountDescTrans {α : Type} : IsTrans (α × Nat) (@byCountDesc α) :=
  ⟨fun _ _ _ h1 h2 => Nat.le_trans h2 h1⟩

/-- The ascending-key order of `sort_index` on the year column. -/
def byYearAsc (p q : Int × Nat) : Prop :=
  p.1 ≤ q.1

instance byYearAscDec : DecidableRel byYearAsc :=
  fun p q => Int.decLe p.1 q.1

instance byYearAscTotal : IsTotal (Int × Nat) byYearAsc :=
  ⟨fun p q => Int.le_total p.1 q.1⟩

instance byYearAscTrans : IsTrans (Int × Nat) byYearAsc :=
  ⟨fun _ _ _ h1 h2 => Int.le_trans h1 h2⟩

/-- Models a `Counter` (or un-sorted `value_counts`) of a list: the distinct
values in first-occurrence order, each paired with its multiplicity. -/
def countBy {α : Type} [DecidableEq α] (xs : List α) : List (α × Nat) :=
  (dedupFirst xs).map (fun a => (a, countVal a xs))

/-- The `publication_year` column of a cleaned table. -/
def years_col (df : List CleanRow) : List Int :=
  df.filterMap (fun r => r.publication_year)

/-- The `journal_clean` column of a cleaned table, nulls dropped (as
`value_counts` drops NaN). -/
def journals_clean (df : List CleanRow) : List String :=
  df.filterMap (fun r => r.journal_clean)

/-- Embedding of `analyze_publications_over_time`: `value_counts` on the year
column, `sort_index` (ascending, stably), then keep the years `>= 2010` — the
lower bound is hardcoded in the source. -/
def analyze_publications_over_time (df : List CleanRow) : List (Int × Nat) :=
  (List.insertionSort byYearAsc (countBy (years_col df))).filter
    (fun p => decide (2010 ≤ p.1))

/-- Embedding of `analyze_top_journals`: `value_counts` on `journal_clean`
(count-descending, ties in first-occurrence order) followed by `head(top_n)`. -/
def analyze_top_journals (df : List CleanRow) (top_n : Nat) : List (String × Nat) :=
  (List.insertionSort byCountDesc (countBy (journals_clean df))).take top_n

/-- The text columns offered to `analyze_word_frequency` by the UI. -/
inductive TextColumn
  | title
  | abstract
  deriving DecidableEq

/-- Column selector for a cleaned row. -/
def colText (c : TextColumn) (r : CleanRow) : Option String :=
  match c with
  | TextColumn.title => r.title
  | TextColumn.abstract => r.abstract

/-- Python `' '.join` on character lists. -/
def joinSpaceAux : List (List Char) → List Char
  | [] => []
  | [x] => x
  | x :: xs => x ++ (' ' :: joinSpaceAux xs)

/-- A word character in the sense of the regex metacharacter `\b`: a letter, a
digit or an underscore (ASCII model). -/
def isWordChar (c : Char) : Bool :=
  c.isAlpha || c.isDigit || c == '_'

/-- Embedding of `re.findall` with the pattern `\b[a-zA-Z]{3,}\b` : emit every
maximal alphabetic run of length at least three both of whose neighbouring
characters (when present) are non-word characters.  A run adjacent to a digit
or an underscore fails the word boundary and produces no match at all.
`sOk` records whether the character before the current run position is a
non-word character (so a run may start here), and `cur` holds the current
alphabetic run reversed. -/
def fwAux (sOk : Bool) (cur : List Char) : List Char → List (List Char)
  | [] =>
    if sOk && !cur.isEmpty && decide (3 ≤ cur.length) then [cur.reverse] else []
  | c :: cs =>
    if c.isAlpha then fwAux sOk (c :: cur) cs
    else
      (if sOk && !cur.isEmpty && decide (3 ≤ cur.length) && !isWordChar c then
        [cur.reverse]
      else []) ++ fwAux (!isWordChar c) [] cs

/-- The token list of `analyze_word_frequency`: the selected column's non-null
values joined by spaces, lowercased, and scanned by the word regex. -/
def wf_words (df : List CleanRow) (column : TextColumn) : List String :=
  (fwAux true []
      ((joinSpaceAux ((df.filterMap (colText column)).map String.data)).map Char.toLower)).map
    (fun cs => String.mk cs)

/-- The stop-word set removed by `analyze_word_frequency`. -/
def stop_words : List String :=
  ["the", "and", "of", "in", "to", "a", "for", "with", "on", "by",
   "as", "an", "from", "that", "this", "is", "are", "was", "were", "be"]

/-- Embedding of `analyze_word_frequency`: count the tokens (first-occurrence
order), remove the stop words, and return the `top_n` most frequent pairs,
count descending with ties in first-occurrence order (`Counter.most_common`
uses a stable descending sort). -/
def analyze_word_frequency (df : List CleanRow) (column : TextColumn) (top_n : Nat) :
    List (String × Nat) :=
  (List.insertionSort byCountDesc
      ((countBy (wf_words df column)).filter (fun p => decide (p.1 ∉ stop_words)))).take
    top_n

/-- Modelled from the spec's words, for comparison with the source tokenizer:
"tokenizes on alphabetic runs of length ≥ 3" — every maximal alphabetic run of
length at least three, with no word-boundary condition on neighbouring digits
or underscores. -/
def spec_words (df : List CleanRow) (column : TextColumn) : List String :=
  ((runsAux Char.isAlpha []
        ((joinSpaceAux ((df.filterMap (colText column)).map String.data)).map Char.toLower)).filter
      (fun t => decide (3 ≤ t.length))).map
    (fun cs => String.mk cs)

/-- Word frequency as the spec describes it: identical to the source pipeline
except that the tokenizer is the spec's "alphabetic runs of length ≥ 3". -/
def spec_word_frequency (df : List CleanRow) (column : TextColumn) (top_n : Nat) :
    List (String × Nat) :=
  (List.insertionSort byCountDesc
      ((countBy (spec_words df column)).filter (fun p => decide (p.1 ∉ stop_words)))).take
    top_n

/-- State of a `CORD19Analyzer` instance: the raw table held in `self.df`. -/
structure AnalyzerState where
  df : List RawRow
  deriving DecidableEq

/-- The `clean_data` method as a state transformer: the source first takes
`df_clean = self.df.copy()` and performs every assignment on that copy, so the
instance state is returned unchanged next to the cleaned table. -/
def clean_data_method (s : AnalyzerState) : AnalyzerState × Option (List CleanRow) :=
  let df_clean := s.df
  (s, clean_data df_clean)

/-- Failures of the underlying `pd.read_csv` call: a missing file, an
unreadable file, and content that is not valid delimited tabular data. -/
inductive FsError
  | fileNotFound
  | permissionDenied
  | parseError
  deriving DecidableEq

/-- Observable outcome of calling `load_data`: either the method returns (with
an optional raw table) or an uncaught exception propagates. -/
inductive LoadOutcome
  | returned : Option (List RawRow) → LoadOutcome
  | raised : FsError → LoadOutcome
  deriving DecidableEq

/-- Embedding of `CORD19Analyzer.load_data`, parameterised by the outcome of
the `pd.read_csv` call on the stored path.  The `try/except` catches only
`FileNotFoundError`, prints a message and returns `None`; every other failure
(unreadable file, malformed content) propagates uncaught. -/
def load_data (res : Except FsError (List RawRow)) : LoadOutcome :=
  match res with
  | Except.ok df => LoadOutcome.returned (some df)
  | Except.error FsError.fileNotFound => LoadOutcome.returned none
  | Except.error e => LoadOutcome.raised e

/-- A year of maximal multiplicity in the parsed year column. -/
def IsModeValue (ys : List Int) (z : Int) : Prop :=
  z ∈ ys ∧ ∀ w ∈ ys, countVal w ys ≤ countVal z ys

/-- First row of the spec's worked example: full title, three-word abstract,
padded journal name, a well-formed date. -/
def rawEx1 : RawRow :=
  ⟨some ("A"), some ("one two three"), some (" NEJM "), none, some ("2021-03-01")⟩

/-- Second row of the spec's worked example: null title and abstract,
unparseable date. -/
def rawEx2 : RawRow :=
  ⟨none, none, some ("Lancet"), none, some ("bad-date")⟩

/-- The single row the spec's worked example expects `clean` to return. -/
def cleanEx1 : CleanRow :=
  ⟨some ("A"), some ("one two three"), some (" NEJM "), none, some 2021,
   some 2021, 3, some ("nejm")⟩

/-- A raw row whose only date is unparseable. -/
def rawEx3 : RawRow :=
  ⟨some ("A"), none, none, none, some ("bad-date")⟩

/-- A cleaned row carrying the title of the spec's word-frequency example. -/
def exTitleRow : CleanRow :=
  ⟨some ("the cat sat"), none, none, none, some 2020, some 2020, 0, none⟩

/-- A cleaned row whose title is a letter run directly followed by digits —
the regex word boundary rejects it while the spec's "alphabetic runs"
tokenizer keeps its alphabetic part. -/
def cwRow : CleanRow :=
  ⟨some ("covid19"), none, none, none, some 2020, some 2020, 0, none⟩

/-- A raw table whose parsed years are `[2020, 2020, 2019, 2019]`: the two
years are tied for most frequent. -/
def dfTie : List RawRow :=
  [⟨some ("t1"), none, none, none, some ("2020-01-02")⟩,
   ⟨some ("t2"), none, none, none, some ("2020-03-04")⟩,
   ⟨some ("t3"), none, none, none, some ("2019-05-06")⟩,
   ⟨some ("t4"), none, none, none, some ("2019-07-08")⟩]

theorem countVal_pos {α : Type} [DecidableEq α] (a : α) :
    ∀ l : List α, a ∈ l → 1 ≤ countVal a l := by
  intro l h
  induction l with
  | nil => cases h
  | cons b bs ih =>
    rcases List.mem_cons.mp h with rfl | hb
    · simp [countVal]
    · have h1 := ih hb
      have h2 : countVal a bs ≤ (if b = a then 1 else 0) + countVal a bs :=
        Nat.le_add_left _ _
      exact le_trans h1 h2

theorem mem_dedupFirst {α : Type} [DecidableEq α] (a : α) :
    ∀ l : List α, a ∈ dedupFirst l ↔ a ∈ l := by
  intro l
  induction l with
  | nil => simp [dedupFirst]
  | cons b bs ih =>
    simp only [dedupFirst, List.mem_cons, List.mem_filter]
    constructor
    · rintro (rfl | ⟨h1, _⟩)
      · exact Or.inl rfl
      · exact Or.inr (ih.mp h1)
    · rintro (rfl | h)
      · exact Or.inl rfl
      · by_cases hab : a = b
        · exact Or.inl hab
        · exact Or.inr ⟨ih.mpr h, by simpa using hab⟩

theorem nodup_dedupFirst {α : Type} [DecidableEq α] :
    ∀ l : List α, (dedupFirst l).Nodup := by
  intro l
  induction l with
  | nil => simp [dedupFirst]
  | cons b bs ih =>
    simp only [dedupFirst]
    refine List.nodup_cons.mpr ⟨?_, ih.filter _⟩
    intro hmem
    rcases List.mem_filter.mp hmem with ⟨_, hne⟩
    simp at hne

theorem countBy_mem {α : Type} [DecidableEq α] (xs : List α) (p : α × Nat)
    (h : p ∈ countBy xs) : p.1 ∈ xs ∧ p.2 = countVal p.1 xs := by
  rcases List.mem_map.mp h with ⟨a, ha, rfl⟩
  exact ⟨(mem_dedupFirst a xs).mp ha, rfl⟩

theorem countBy_keys {α : Type} [DecidableEq α] (xs : List α) :
    (countBy xs).map Prod.fst = dedupFirst xs := by
  unfold countBy
  rw [List.map_map]
  exact List.map_id _

theorem listMin_eq_none : ∀ l : List Int, listMin l = none ↔ l = [] := by
  intro l
  cases l with
  | nil => simp [listMin]
  | cons a as =>
    simp only [listMin]
    cases h : listMin as <;> simp

theorem listMin_spec : ∀ (l : List Int) (m : Int), listMin l = some m →
    m ∈ l ∧ ∀ x ∈ l, m ≤ x := by
  intro l
  induction l with
  | nil => intro m h; cases h
  | cons a as ih =>
    intro m h
    simp only [listMin] at h
    cases hmin : listMin as with
    | none =>
      rw [hmin] at h
      have hm := Option.some.inj h
      subst hm
      have hnil : as = [] := (listMin_eq_none as).mp hmin
      subst hnil
      refine ⟨List.mem_singleton_self a, ?_⟩
      intro x hx
      rcases List.mem_singleton.mp hx with rfl
      exact le_refl _
    | some m0 =>
      rw [hmin] at h
      have hm := Option.some.inj h
      subst hm
      rcases ih m0 hmin with ⟨hmem, hle⟩
      constructor
      · rcases min_choice a m0 with h1 | h1
        · rw [h1]; exact List.mem_cons_self a as
        · rw [h1]; exact List.mem_cons_of_mem a hmem
      · intro x hx
        rcases List.mem_cons.mp hx with rfl | hx
        · exact min_le_left _ _
        · exact le_trans (min_le_right a m0) (hle x hx)

theorem le_foldlMax (g : Int → Nat) : ∀ (d : List Int) (a : Nat),
    a ≤ d.foldl (fun m v => max m (g v)) a := by
  intro d
  induction d with
  | nil => intro a; exact le_refl a
  | cons v vs ih =>
    intro a
    simp only [List.foldl_cons]
    exact le_trans (Nat.le_max_left a (g v)) (ih (max a (g v)))

theorem foldlMax_ge (g : Int → Nat) : ∀ (d : List Int) (a : Nat) (v : Int), v ∈ d →
    g v ≤ d.foldl (fun m v => max m (g v)) a := by
  intro d
  induction d with
  | nil => intro a v hv; cases hv
  | cons w ws ih =>
    intro a v hv
    simp only [List.foldl_cons]
    rcases List.mem_cons.mp hv with rfl | hv
    · exact le_trans (Nat.le_max_right a (g v)) (le_foldlMax g ws (max a (g v)))
    · exact ih (max a (g w)) v hv

theorem foldlMax_attain (g : Int → Nat) : ∀ (d : List Int) (a : Nat),
    d.foldl (fun m v => max m (g v)) a = a ∨
      ∃ v ∈ d, g v = d.foldl (fun m v => max m (g v)) a := by
  intro d
  induction d with
  | nil => intro a; exact Or.inl rfl
  | cons w ws ih =>
    intro a
    simp only [List.foldl_cons]
    rcases ih (max a (g w)) with h | ⟨v, hv, hgv⟩
    · rcases max_choice a (g w) with h1 | h1
      · rw [h1] at h ⊢; exact Or.inl h
      · rw [h1] at h ⊢
        exact Or.inr ⟨w, List.mem_cons_self w ws, h.symm⟩
    · exact Or.inr ⟨v, List.mem_cons_of_mem w hv, hgv⟩

theorem maxCount_ge (ys : List Int) (v : Int) (hv : v ∈ ys) :
    countVal v ys ≤ maxCount ys := by
  have h := foldlMax_ge (fun w => countVal w ys) (dedupFirst ys) 0 v
    ((mem_dedupFirst v ys).mpr hv)
  simpa [maxCount] using h

theorem modeCandidates_ne_nil (ys : List Int) (hne : ys ≠ []) :
    modeCandidates ys ≠ [] := by
  cases ys with
  | nil => exact absurd rfl hne
  | cons y ts =>
    have hy : y ∈ y :: ts := List.mem_cons_self y ts
    have h1 : 1 ≤ countVal y (y :: ts) := countVal_pos y (y :: ts) hy
    have h2 : countVal y (y :: ts) ≤ maxCount (y :: ts) := maxCount_ge (y :: ts) y hy
    rcases foldlMax_attain (fun v => countVal v (y :: ts)) (dedupFirst (y :: ts)) 0 with
      h3 | ⟨v, hv, hgv⟩
    · have h4 : maxCount (y :: ts) = 0 := h3
      omega
    · intro hnil
      have hvmem : v ∈ modeCandidates (y :: ts) :=
        List.mem_filter.mpr ⟨hv, decide_eq_true hgv⟩
      rw [hnil] at hvmem
      cases hvmem

theorem modeSmallest_spec (ys : List Int) (m : Int) (h : modeSmallest ys = some m) :
    IsModeValue ys m ∧ ∀ z : Int, IsModeValue ys z → m ≤ z := by
  rcases listMin_spec _ m h with ⟨hmem, hle⟩
  rcases List.mem_filter.mp hmem with ⟨hd, hcnt⟩
  have hcm : countVal m ys = maxCount ys := of_decide_eq_true hcnt
  have hm_ys : m ∈ ys := (mem_dedupFirst m ys).mp hd
  constructor
  · exact ⟨hm_ys, fun w hw => hcm ▸ maxCount_ge ys w hw⟩
  · intro z hz
    rcases hz with ⟨hz_ys, hz_max⟩
    have h1 : countVal z ys ≤ maxCount ys := maxCount_ge ys z hz_ys
    have h2 : maxCount ys ≤ countVal z ys := hcm ▸ hz_max m hm_ys
    have hzc : z ∈ modeCandidates ys :=
      List.mem_filter.mpr ⟨(mem_dedupFirst z ys).mpr hz_ys,
        decide_eq_true (le_antisymm h1 h2)⟩
    exact hle z hzc

theorem modeSmallest_isSome_iff (ys : List Int) :
    (modeSmallest ys).isSome = true ↔ ys ≠ [] := by
  constructor
  · intro h hnil
    subst hnil
    simp [modeSmallest, modeCandidates, dedupFirst, listMin] at h
  · intro hne
    cases hm : modeSmallest ys with
    | none =>
      have := (listMin_eq_none (modeCandidates ys)).mp hm
      exact absurd this (modeCandidates_ne_nil ys hne)
    | some m => rfl

theorem clean_data_eq_some {df : List RawRow} {out : List CleanRow}
    (h : clean_data df = some out) :
    ∃ m, modeSmallest (df.filterMap rowYear) = some m ∧
      out = (df.map (cleanRow m)).filter (fun r => r.title.isSome) := by
  unfold clean_data at h
  cases hm : modeSmallest (df.filterMap rowYear) with
  | none => rw [hm] at h; cases h
  | some m => rw [hm] at h; exact ⟨m, rfl, (Option.some.inj h).symm⟩

theorem fwAux_tokens : ∀ (l : List Char) (sOk : Bool) (cur : List Char),
    (∀ c ∈ cur, c.isAlpha = true) →
    ∀ t ∈ fwAux sOk cur l, 3 ≤ t.length ∧ ∀ c ∈ t, c.isAlpha = true := by
  intro l
  induction l with
  | nil =>
    intro sOk cur hcur t ht
    simp only [fwAux] at ht
    split at ht
    case isTrue hok =>
      rcases List.mem_singleton.mp ht with rfl
      simp only [Bool.and_eq_true, decide_eq_true_eq] at hok
      constructor
      · simpa [List.length_reverse] using hok.2
      · intro c hc
        exact hcur c (List.mem_reverse.mp hc)
    case isFalse _ => cases ht
  | cons c cs ih =>
    intro sOk cur hcur t ht
    simp only [fwAux] at ht
    split at ht
    case isTrue hc =>
      refine ih sOk (c :: cur) ?_ t ht
      intro x hx
      rcases List.mem_cons.mp hx with rfl | hx
      · exact hc
      · exact hcur x hx
    case isFalse hc =>
      rcases List.mem_append.mp ht with hl | hr
      · split at hl
        case isTrue hok =>
          rcases List.mem_singleton.mp hl with rfl
          simp only [Bool.and_eq_true, decide_eq_true_eq] at hok
          constructor
          · simpa [List.length_reverse] using hok.1.2
          · intro x hx
            exact hcur x (List.mem_reverse.mp hx)
        case isFalse _ => cases hl
      · refine ih (!isWordChar c) [] ?_ t hr
        intro x hx
        cases hx

theorem wf_words_tokens (df : List CleanRow) (column : TextColumn) :
    ∀ w ∈ wf_words df column, 3 ≤ w.length ∧ w.data.all Char.isAlpha = true := by
  intro w hw
  rcases List.mem_map.mp hw with ⟨t, ht, rfl⟩
  rcases fwAux_tokens _ true [] (by intro c hc; cases hc) t ht with ⟨h3, hall⟩
  constructor
  · exact h3
  · simp only [List.all_eq_true]
    exact fun c hc => hall c hc

theorem countVal_filterMap {α β : Type} [DecidableEq β] (f : α → Option β) (y : β) :
    ∀ xs : List α, countVal y (xs.filterMap f) =
      (xs.filter (fun r => decide (f r = some y))).length := by
  intro xs
  induction xs with
  | nil => rfl
  | cons x xs ih =>
    cases hf : f x with
    | none => simp [List.filterMap_cons, hf, List.filter_cons, ih]
    | some z =>
      by_cases hz : z = y
      · subst hz
        simp only [List.filterMap_cons, hf, List.filter_cons, countVal, ih]
        simp
        omega
      · simp [List.filterMap_cons, hf, List.filter_cons, countVal, ih, hz]

theorem mem_take_insertionSort {α : Type} (r : α → α → Prop) [DecidableRel r]
    (xs : List α) (n : Nat) (p : α)
    (h : p ∈ (List.insertionSort r xs).take n) : p ∈ xs :=
  (List.perm_insertionSort r xs).mem_iff.mp (List.mem_of_mem_take h)

theorem sorted_take_insertionSort {α : Type} (r : α → α → Prop) [DecidableRel r]
    [IsTotal α r] [IsTrans α r] (xs : List α) (n : Nat) :
    List.Sorted r ((List.insertionSort r xs).take n) :=
  List.Pairwise.sublist (List.take_sublist n _) (List.sorted_insertionSort r xs)

/-- Claim C1: for every raw input table, every row of the table returned by
`clean_data` has a non-null title, a non-null (integer-valued) publication
year, and a non-negative abstract word count. -/
theorem clean_rows_title_year_invariant (df : List RawRow) (out : List CleanRow)
    (h : clean_data df = some out) :
    ∀ r ∈ out, r.title.isSome = true ∧ r.publication_year.isSome = true ∧
      0 ≤ r.abstract_word_count := by
  rcases clean_data_eq_some h with ⟨m, _, rfl⟩
  intro r hr
  rcases List.mem_filter.mp hr with ⟨hmap, htitle⟩
  refine ⟨htitle, ?_, Nat.zero_le _⟩
  rcases List.mem_map.mp hmap with ⟨x, _, rfl⟩
  rfl

/-- Closed instance of the cleaning invariant at the worked example table. -/
theorem clean_rows_title_year_invariant_app :
    cleanEx1.title.isSome = true ∧ cleanEx1.publication_year.isSome = true ∧
      0 ≤ cleanEx1.abstract_word_count :=
  clean_rows_title_year_invariant [rawEx1, rawEx2] [cleanEx1] (by decide) cleanEx1
    (by decide)

/-- Claim C2: on the spec's two-row example table `clean_data` returns
exactly one row (the second is dropped for its null title), with abstract
word count 3, journal_clean "nejm" and publication year 2021. -/
theorem clean_two_row_example :
    clean_data [rawEx1, rawEx2] = some [cleanEx1] ∧
      cleanEx1.abstract_word_count = 3 ∧
      cleanEx1.journal_clean = some ("nejm") ∧
      cleanEx1.publication_year = some 2021 := by
  decide

/-- Claim C3 counterexample: a table whose single row has an unparseable
publish_time makes `clean_data` fail — the year column is all null, its mode
is empty, and `mode()[0]` raises a `KeyError` — so malformed dates are not
always recovered locally. -/
theorem clean_all_bad_dates_fails : clean_data [rawEx3] = none := by
  decide

/-- Claim C3 (amended): `clean_data` treats malformed and missing dates as
null and recovers them by mode imputation, succeeding exactly when at least
one row's publish_time parses; when no date parses, the imputation itself
fails. -/
theorem clean_succeeds_iff_some_date_parses (df : List RawRow) :
    (clean_data df).isSome = true ↔ df.filterMap rowYear ≠ [] := by
  have heq : (clean_data df).isSome = (modeSmallest (df.filterMap rowYear)).isSome := by
    unfold clean_data
    cases modeSmallest (df.filterMap rowYear) <;> rfl
  rw [heq]
  exact modeSmallest_isSome_iff (df.filterMap rowYear)

/-- Claim C4 counterexample: at a non-existent path `load_data` does not
surface the failure to the caller as an error: the `FileNotFoundError` is
caught, a message is printed, and the method returns `None`. -/
theorem load_missing_file_not_raised :
    load_data (Except.error FsError.fileNotFound) = LoadOutcome.returned none ∧
      load_data (Except.error FsError.fileNotFound) ≠
        LoadOutcome.raised FsError.fileNotFound := by
  decide

/-- Claim C4 (amended): when the path does not exist `load_data` swallows the
failure and returns `None` — no raw table is produced but no error reaches
the caller; an unreadable file or unparseable content propagates its error
uncaught. -/
theorem load_error_behaviour :
    load_data (Except.error FsError.fileNotFound) = LoadOutcome.returned none ∧
      load_data (Except.error FsError.permissionDenied) =
        LoadOutcome.raised FsError.permissionDenied ∧
      load_data (Except.error FsError.parseError) =
        LoadOutcome.raised FsError.parseError := by
  decide

/-- Claim C5 counterexample: `analyze_word_frequency` does not tokenize on
alphabetic runs of length ≥ 3: on the single title "covid19" the regex word
boundary rejects the five-letter run "covid" (it is followed by a digit) and
the code finds no words at all, while tokenizing on alphabetic runs yields
[("covid", 1)]. -/
theorem word_frequency_not_alpha_runs :
    analyze_word_frequency [cwRow] TextColumn.title 5 = [] ∧
      spec_word_frequency [cwRow] TextColumn.title 5 = [(("covid"), 1)] ∧
      analyze_word_frequency [cwRow] TextColumn.title 5 ≠
        spec_word_frequency [cwRow] TextColumn.title 5 := by
  decide

/-- Claim C5 (amended): `analyze_word_frequency` returns at most n pairs,
count-descending (stable sort, so ties stay in first-encountered order), each
pair a non-stop-word token of at least 3 alphabetic characters whose count
tallies the token list, where tokens are the maximal alphabetic runs of
length ≥ 3 not adjacent to another word character; on the spec's example row
it returns [("cat", 1), ("sat", 1)]. -/
theorem word_frequency_properties (df : List CleanRow) (column : TextColumn) (top_n : Nat) :
    (analyze_word_frequency df column top_n).length ≤ top_n ∧
      List.Sorted byCountDesc (analyze_word_frequency df column top_n) ∧
      (∀ p, p ∈ analyze_word_frequency df column top_n →
        p.1 ∉ stop_words ∧ 3 ≤ p.1.length ∧ p.1.data.all Char.isAlpha = true ∧
          p.2 = countVal p.1 (wf_words df column)) ∧
      analyze_word_frequency [exTitleRow] TextColumn.title 5 =
        [(("cat"), 1), (("sat"), 1)] := by
  unfold analyze_word_frequency
  refine ⟨List.length_take_le _ _, sorted_take_insertionSort _ _ _, ?_, by decide⟩
  intro p hp
  have hmem : p ∈ (countBy (wf_words df column)).filter
      (fun p => decide (p.1 ∉ stop_words)) :=
    mem_take_insertionSort _ _ _ p hp
  rcases List.mem_filter.mp hmem with ⟨hcount, hstop⟩
  rcases countBy_mem _ p hcount with ⟨hw, hc⟩
  rcases wf_words_tokens df column p.1 hw with ⟨h3, hall⟩
  exact ⟨of_decide_eq_true hstop, h3, hall, hc⟩

/-- Closed instance of the amended word-frequency properties at the example
row and its token "cat". -/
theorem word_frequency_properties_app :
    ((("cat") : String), 1).1 ∉ stop_words ∧
      3 ≤ ((("cat") : String), 1).1.length ∧
      ((("cat") : String), 1).1.data.all Char.isAlpha = true ∧
      ((("cat") : String), 1).2 =
        countVal ((("cat") : String), 1).1 (wf_words [exTitleRow] TextColumn.title) :=
  (word_frequency_properties [exTitleRow] TextColumn.title 5).2.2.1
    ((("cat") : String), 1) (by decide)

/-- Claim C6: `analyze_top_journals` returns at most n entries, sorted by
count descending, and each journal's count equals the direct tally of that
journal in the journal_clean column. -/
theorem top_journals_properties (df : List CleanRow) (n : Nat) :
    (analyze_top_journals df n).length ≤ n ∧
      List.Sorted byCountDesc (analyze_top_journals df n) ∧
      ∀ p, p ∈ analyze_top_journals df n →
        p.2 = (df.filter (fun r => decide (r.journal_clean = some p.1))).length := by
  unfold analyze_top_journals
  refine ⟨List.length_take_le _ _, sorted_take_insertionSort _ _ _, ?_⟩
  intro p hp
  have hmem := mem_take_insertionSort _ _ _ p hp
  rcases countBy_mem _ p hmem with ⟨_, hc⟩
  rw [hc]
  exact countVal_filterMap (fun r => r.journal_clean) p.1 df

/-- Closed instance of the top-journal properties at a one-row table. -/
theorem top_journals_properties_app :
    ((("nejm") : String), 1).2 =
      ([cleanEx1].filter
        (fun r => decide (r.journal_clean = some ((("nejm") : String), 1).1))).length :=
  (top_journals_properties [cleanEx1] 3).2.2 ((("nejm") : String), 1) (by decide)

theorem pairwise_fst_lt_of_sorted_nodup :
    ∀ s : List (Int × Nat), List.Pairwise byYearAsc s → (s.map Prod.fst).Nodup →
      List.Pairwise (fun p q : Int × Nat => p.1 < q.1) s := by
  intro s
  induction s with
  | nil => intro _ _; exact List.Pairwise.nil
  | cons a t ih =>
    intro hs hn
    rcases List.pairwise_cons.mp hs with ⟨ha, ht⟩
    rw [List.map_cons] at hn
    rcases List.nodup_cons.mp hn with ⟨hna, hnt⟩
    refine List.pairwise_cons.mpr ⟨?_, ih ht hnt⟩
    intro b hb
    refine lt_of_le_of_ne (ha b hb) ?_
    intro heq
    apply hna
    rw [heq]
    exact List.mem_map_of_mem Prod.fst hb

/-- Claim C7: every key of `analyze_publications_over_time` is at least 2010
(the requested minimum year, hardcoded at its default in the source), the
keys are strictly increasing, and each value counts the cleaned rows with
that publication year. -/
theorem publications_by_year_properties (df : List CleanRow) :
    (∀ p, p ∈ analyze_publications_over_time df →
        (2010 : Int) ≤ p.1 ∧
          p.2 = (df.filter (fun r => decide (r.publication_year = some p.1))).length) ∧
      List.Pairwise (fun p q : Int × Nat => p.1 < q.1)
        (analyze_publications_over_time df) := by
  unfold analyze_publications_over_time
  constructor
  · intro p hp
    rcases List.mem_filter.mp hp with ⟨hsort, hge⟩
    have hmem : p ∈ countBy (years_col df) :=
      (List.perm_insertionSort byYearAsc _).mem_iff.mp hsort
    rcases countBy_mem _ p hmem with ⟨_, hc⟩
    refine ⟨of_decide_eq_true hge, ?_⟩
    rw [hc]
    exact countVal_filterMap (fun r => r.publication_year) p.1 df
  · have hsorted : List.Sorted byYearAsc
        (List.insertionSort byYearAsc (countBy (years_col df))) :=
      List.sorted_insertionSort byYearAsc _
    have hnodup : ((List.insertionSort byYearAsc (countBy (years_col df))).map
        Prod.fst).Nodup := by
      have hperm : List.Perm
          ((List.insertionSort byYearAsc (countBy (years_col df))).map Prod.fst)
          ((countBy (years_col df)).map Prod.fst) :=
        (List.perm_insertionSort byYearAsc _).map Prod.fst
      rw [hperm.nodup_iff, countBy_keys]
      exact nodup_dedupFirst _
    have hpw : List.Pairwise (fun p q : Int × Nat => p.1 < q.1)
        (List.insertionSort byYearAsc (countBy (years_col df))) :=
      pairwise_fst_lt_of_sorted_nodup _ hsorted hnodup
    exact List.Pairwise.sublist (List.filter_sublist _) hpw

/-- Closed instance of the publications-by-year properties at a one-row
table. -/
theorem publications_by_year_properties_app :
    (2010 : Int) ≤ (((2021 : Int), 1) : Int × Nat).1 ∧
      (((2021 : Int), 1) : Int × Nat).2 =
        ([cleanEx1].filter
          (fun r => decide (r.publication_year = some (((2021 : Int), 1) : Int × Nat).1))).length :=
  (publications_by_year_properties [cleanEx1]).1 ((2021 : Int), 1) (by decide)

/-- Claim C8: in every table returned by `clean_data` the abstract word count
of a row is 0 when its abstract is null, and the number of its abstract's
whitespace-separated tokens otherwise. -/
theorem abstract_word_count_matches (df : List RawRow) (out : List CleanRow)
    (h : clean_data df = some out) :
    ∀ r ∈ out, (r.abstract = none → r.abstract_word_count = 0) ∧
      ∀ s : String, r.abstract = some s → r.abstract_word_count = (splitWS s).length := by
  rcases clean_data_eq_some h with ⟨m, _, rfl⟩
  intro r hr
  rcases List.mem_filter.mp hr with ⟨hmap, _⟩
  rcases List.mem_map.mp hmap with ⟨x, _, rfl⟩
  constructor
  · intro hnone
    show pyWordCount x.abstract = 0
    have hx : x.abstract = none := hnone
    rw [hx]
    rfl
  · intro s hs
    show pyWordCount x.abstract = (splitWS s).length
    have hx : x.abstract = some s := hs
    rw [hx]
    rfl

/-- Closed instance of the word-count agreement at the worked example row. -/
theorem abstract_word_count_matches_app :
    cleanEx1.abstract_word_count = (splitWS ("one two three")).length :=
  ((abstract_word_count_matches [rawEx1] [cleanEx1] (by decide)) cleanEx1
      (by decide)).2 ("one two three") (by decide)

/-- Claim C9: clean_data never mutates the raw table: the source copies
`self.df` and performs every column assignment on the copy, so the analyzer
state observed after the call equals the state observed before it. -/
theorem clean_preserves_raw_table (s : AnalyzerState) :
    (clean_data_method s).1 = s ∧ (clean_data_method s).1.df = s.df :=
  ⟨rfl, rfl⟩

/-- Claim C10: the year imputed for rows with a null date is deterministic:
it is a most-frequent parsed year and is the smallest among all tied
most-frequent years (`Series.mode` returns its values sorted ascending and
the code takes element 0), and `clean_data` fills exactly that year into
every row whose date failed to parse. -/
theorem mode_imputation_smallest (df : List RawRow) (m : Int)
    (h : modeSmallest (df.filterMap rowYear) = some m) :
    IsModeValue (df.filterMap rowYear) m ∧
      (∀ z : Int, IsModeValue (df.filterMap rowYear) z → m ≤ z) ∧
      clean_data df = some ((df.map (cleanRow m)).filter (fun r => r.title.isSome)) ∧
      ∀ r : RawRow, rowYear r = none → (cleanRow m r).publication_year = some m := by
  rcases modeSmallest_spec _ m h with ⟨h1, h2⟩
  refine ⟨h1, h2, ?_, ?_⟩
  · unfold clean_data
    rw [h]
  · intro r hr
    show some ((rowYear r).getD m) = some m
    rw [hr]
    rfl

/-- Closed instance: on a table whose parsed years are [2020, 2020, 2019,
2019] the imputed year is 2019, the smaller of the two tied mode years. -/
theorem mode_imputation_smallest_app :
    (cleanRow 2019 rawEx3).publication_year = some 2019 :=
  (mode_imputation_smallest dfTie 2019 (by decide)).2.2.2 rawEx3 (by decide)
